import Mathlib

/-!
Verification development for the webidl2js `Transformer` pipeline
(`src/lib/transformer.js`).

The JavaScript source is shallowly embedded: each phase of the pipeline
(source collection, document loading, the two-pass parse, file emission)
becomes an executable Lean function over explicit state.  JavaScript `Map`s
become insertion-ordered association lists with `Map.set`/`Map.get`
semantics; promise rejections and thrown exceptions become `Except.error`;
`undefined`-able values become `Option`.
-/

set_option autoImplicit false

/-! Association-list maps with JS `Map` semantics

`mapSet` replaces the value in place when the key is present (keeping its
position, as JS `Map.prototype.set` does) and appends otherwise; `mapGet`
is `Map.prototype.get`. -/

def mapSet {α : Type} : List (String × α) → String → α → List (String × α)
  | [], k, v => [(k, v)]
  | (k', v') :: rest, k, v =>
    if k' = k then (k, v) :: rest else (k', v') :: mapSet rest k v

def mapGet {α : Type} : List (String × α) → String → Option α
  | [], _ => none
  | (k', v) :: rest, k => if k' = k then some v else mapGet rest k

/-- `Map.prototype.has`. -/
def hasKey {α : Type} (m : List (String × α)) (k : String) : Bool :=
  (mapGet m k).isSome

/-! Path model

The Node `path` module is an external collaborator.  Joining and resolving
are modelled as separator concatenation, `dirname` as dropping the final
component; the claims below depend only on which arguments these functions
receive, not on their internal normalisation. -/

def pathJoin (a b : String) : String := a ++ "/" ++ b

def pathResolve (base p : String) : String := base ++ "/" ++ p

def pathDirname (p : String) : String :=
  String.mk (((p.data.reverse.dropWhile (fun c => c ≠ '/')).drop 1).reverse)

/-- `String.prototype.endsWith`, on the character-list representation. -/
def strEndsWith (s suf : String) : Bool := List.isSuffixOf suf.data s.data

/-! Instructions and registry entries

`webidl2.parse` returns a list of typed instruction records (§6 of the
spec); only the fields the transformer reads are modelled.  Member and
extended-attribute records are opaque to the transformer, so they are
plain strings here.  `isPart` models `instruction.partial`. -/

inductive Instruction : Type where
  | iface (name : String) (isPart : Bool) (members : List String) (extAttrs : List String)
  | dict (name : String) (isPart : Bool) (members : List String) (extAttrs : List String)
  | impls (target : String) (source : String)
  | tdef (name : String)
  | other (ty : String)
  deriving Repr, DecidableEq

/-- Modelled from the spec: `src/lib/constructs/interface.js` is not under
`src/`; per §3/§6 the entry is keyed by the declared name, wraps the
instruction's member and extended-attribute lists (`obj.idl.members`,
`obj.idl.extAttrs`), records applied mixins (`implements`), and carries an
implementation directory, an output path hint and an `imported` flag. -/
structure InterfaceEntry : Type where
  name : String
  members : List String
  extAttrs : List String
  mixins : List String
  implDir : Option String
  pathHint : Option String
  imported : Bool
  deriving Repr, DecidableEq

/-- Modelled from the spec: `src/lib/constructs/dictionary.js` is not under
`src/`; per §3 the entry is keyed by the declared name, wraps the member and
extended-attribute lists and carries an output path hint and an `imported`
flag (no implementation directory). -/
structure DictionaryEntry : Type where
  name : String
  members : List String
  extAttrs : List String
  pathHint : Option String
  imported : Bool
  deriving Repr, DecidableEq

/-- Modelled from the spec: `src/lib/constructs/typedef.js` is not under
`src/`; a typedef entry has no implementation binding (§3). -/
structure TypedefEntry : Type where
  name : String
  deriving Repr, DecidableEq

/-- The Type Registry (`this.ctx`): three kind-specific maps plus the
combined name→kind index `customTypes`. -/
structure Registry : Type where
  interfaces : List (String × InterfaceEntry)
  dictionaries : List (String × DictionaryEntry)
  typedefs : List (String × TypedefEntry)
  customTypes : List (String × String)
  deriving Repr, DecidableEq

def emptyRegistry : Registry := ⟨[], [], [], []⟩

/-- A parsed document as consumed by `_parse`: the instruction list
together with the provenance metadata (`impl` or `genPath`). -/
structure ParsedFile : Type where
  idl : List Instruction
  impl : Option String
  genPath : Option String
  deriving Repr, DecidableEq

/-! `Transformer._parse`, pass 1

Pass one registers every full (non-partial) interface, dictionary and
typedef; `implements` and partials are deferred; an unrecognized
instruction kind throws unless `suppressErrors` is set. -/

def pass1Step (suppress : Bool) (outputDir : String) (im gp : Option String)
    (reg : Registry) : Instruction → Except String Registry
  | .iface n isPart ms ea =>
    if isPart then .ok reg
    else
      let obj : InterfaceEntry :=
        ⟨n, ms, ea, [], im.map (fun i => pathResolve outputDir i),
          gp.map (fun g => pathJoin g (n ++ ".js")), false⟩
      .ok { reg with
        interfaces := mapSet reg.interfaces n obj,
        customTypes := mapSet reg.customTypes n "interface" }
  | .dict n isPart ms ea =>
    if isPart then .ok reg
    else
      let obj : DictionaryEntry :=
        ⟨n, ms, ea, gp.map (fun g => pathJoin g (n ++ ".js")), false⟩
      .ok { reg with
        dictionaries := mapSet reg.dictionaries n obj,
        customTypes := mapSet reg.customTypes n "dictionary" }
  | .impls _ _ => .ok reg
  | .tdef n => .ok { reg with typedefs := mapSet reg.typedefs n ⟨n⟩ }
  | .other ty =>
    if suppress then .ok reg
    else .error ("Can't convert type '" ++ ty ++ "'")

def runP1Instrs (suppress : Bool) (outputDir : String) (im gp : Option String)
    (reg : Registry) : List Instruction → Except String Registry
  | [] => .ok reg
  | i :: rest =>
    match pass1Step suppress outputDir im gp reg i with
    | .error e => .error e
    | .ok r => runP1Instrs suppress outputDir im gp r rest

def runPass1 (suppress : Bool) (outputDir : String) (reg : Registry) :
    List ParsedFile → Except String Registry
  | [] => .ok reg
  | f :: rest =>
    match runP1Instrs suppress outputDir f.impl f.genPath reg f.idl with
    | .error e => .error e
    | .ok r => runPass1 suppress outputDir r rest

/-! `Transformer._parse`, pass 2

Pass two appends partial interface/dictionary members and extended
attributes onto the registered full entry and applies `implements`.  When
the full entry is absent: with `suppressErrors` the instruction is skipped;
without, the source dereferences `undefined` (`.idl` / `.implements`),
which throws a `TypeError`. -/

def pass2Step (suppress : Bool) (reg : Registry) :
    Instruction → Except String Registry
  | .iface n isPart ms ea =>
    if isPart then
      match mapGet reg.interfaces n with
      | none =>
        if suppress then .ok reg
        else .error "TypeError: Cannot read property of undefined"
      | some obj =>
        let obj' := { obj with members := obj.members ++ ms, extAttrs := obj.extAttrs ++ ea }
        .ok { reg with interfaces := mapSet reg.interfaces n obj' }
    else .ok reg
  | .dict n isPart ms ea =>
    if isPart then
      match mapGet reg.dictionaries n with
      | none =>
        if suppress then .ok reg
        else .error "TypeError: Cannot read property of undefined"
      | some obj =>
        let obj' := { obj with members := obj.members ++ ms, extAttrs := obj.extAttrs ++ ea }
        .ok { reg with dictionaries := mapSet reg.dictionaries n obj' }
    else .ok reg
  | .impls t s =>
    match mapGet reg.interfaces t with
    | none =>
      if suppress then .ok reg
      else .error "TypeError: Cannot read property of undefined"
    | some obj =>
      let obj' := { obj with mixins := obj.mixins ++ [s] }
      .ok { reg with interfaces := mapSet reg.interfaces t obj' }
  | .tdef _ => .ok reg
  | .other _ => .ok reg

def runP2Instrs (suppress : Bool) (reg : Registry) :
    List Instruction → Except String Registry
  | [] => .ok reg
  | i :: rest =>
    match pass2Step suppress reg i with
    | .error e => .error e
    | .ok r => runP2Instrs suppress r rest

def runPass2 (suppress : Bool) (reg : Registry) :
    List ParsedFile → Except String Registry
  | [] => .ok reg
  | f :: rest =>
    match runP2Instrs suppress reg f.idl with
    | .error e => .error e
    | .ok r => runPass2 suppress r rest

/-- `Transformer._parse`: pass 1 over all documents, then pass 2 over all
documents, starting from an empty registry. -/
def parseDocs (suppress : Bool) (outputDir : String)
    (docs : List ParsedFile) : Except String Registry :=
  match runPass1 suppress outputDir emptyRegistry docs with
  | .error e => .error e
  | .ok r => runPass2 suppress r docs

/-- `true` exactly on `Except.ok` results. -/
def exceptOk {α : Type} : Except String α → Bool
  | .ok _ => true
  | .error _ => false

deriving instance DecidableEq for Except

/-! `Transformer.addSource` and transformer state

`addSource(idl, impl)` type-checks both arguments with `typeof x !==
"string"`; a missing argument is `undefined`.  `JsVal` models the values a
caller can pass. -/

inductive JsVal : Type where
  | str (s : String)
  | undef
  deriving Repr, DecidableEq

structure SourceDecl : Type where
  idlPath : String
  impl : String
  deriving Repr, DecidableEq

structure TransformerState : Type where
  sources : List SourceDecl
  modules : List (String × String)
  suppressErrors : Bool
  utilPath : Option String
  implSuffix : String
  deriving Repr, DecidableEq

def newTransformer : TransformerState :=
  ⟨[], [], false, none, ""⟩

def addSource (st : TransformerState) (idl impl : JsVal) :
    Except String TransformerState :=
  match idl with
  | .undef => .error "TypeError: idl path has to be a string"
  | .str i =>
    match impl with
    | .undef => .error "TypeError: impl path has to be a string"
    | .str im => .ok { st with sources := st.sources ++ [⟨i, im⟩] }

/-! Filesystem model and `Transformer._collectSources`

The filesystem is an oracle structure: `stat` classifies a path (`none` is
an I/O failure), `readdir` lists the names directly contained in a
directory (files *and* subdirectories, as `fs.readdir` does), `readFile`
yields a file's text, and `descriptor` is the composite of reading and
JSON-parsing a `package.json` (`none` is a read or parse failure). -/

inductive FsKind : Type where
  | file
  | dir
  deriving Repr, DecidableEq

/-- The `webidl2js` section of a module descriptor: `pkg.webidl2js.interface`
and `pkg.webidl2js.idl`. -/
structure W2JSection : Type where
  ifaceDir : String
  idl : List String
  deriving Repr, DecidableEq

structure PackageJson : Type where
  w2j : Option W2JSection
  deriving Repr, DecidableEq

structure FS : Type where
  stat : String → Option FsKind
  readdir : String → List String
  readFile : String → Option String
  descriptor : String → Option PackageJson

/-- A Resolved File Entry: `{ idlPath, impl }` from `addSource` inputs or
`{ idlPath, genPath }` from module contributions. -/
structure FileEntry : Type where
  idlPath : String
  impl : Option String
  genPath : Option String
  deriving Repr, DecidableEq

/-- The directory branch of `_collectSources`: the loop over `readdir`
results pushing an entry for every name that ends in `".idl"`. -/
def collectFromDir (p : String) (im : String) (names : List String) :
    List FileEntry :=
  List.foldl
    (fun acc f =>
      if strEndsWith f ".idl" then acc ++ [⟨pathJoin p f, some im, none⟩] else acc)
    [] names

/-- `_collectSources` handling of one Source Declaration: stat the path;
directories expand via `collectFromDir`, anything else yields exactly one
entry with no extension check; a stat failure rejects the build. -/
def collectSource (fs : FS) (src : SourceDecl) :
    Except String (List FileEntry) :=
  match fs.stat src.idlPath with
  | none => .error ("ENOENT: " ++ src.idlPath)
  | some .dir => .ok (collectFromDir src.idlPath src.impl (fs.readdir src.idlPath))
  | some .file => .ok [⟨src.idlPath, some src.impl, none⟩]

/-- `_collectSources` handling of one Module Contribution: read and parse
the descriptor (failure is fatal); a missing `webidl2js` section yields no
entries; otherwise the loop over `pkg.webidl2js.idl` pushes one entry per
listed file, resolved against the descriptor's directory and carrying
`genPath = path.posix.join(moduleName, pkg.webidl2js.interface)`. -/
def collectModule (fs : FS) (modName pkgPath : String) :
    Except String (List FileEntry) :=
  match fs.descriptor pkgPath with
  | none => .error ("cannot read descriptor: " ++ pkgPath)
  | some pkg =>
    match pkg.w2j with
    | none => .ok []
    | some sec =>
      let modPath := pathDirname pkgPath
      let genPath := pathJoin modName sec.ifaceDir
      .ok (List.foldl
        (fun acc f => acc ++ [⟨pathResolve modPath f, none, some genPath⟩])
        [] sec.idl)

/-! `Transformer._readFiles`

`Promise.all` over per-file reads (all-or-nothing), then the indexed loop
zipping contents with the entries' metadata. -/

structure LoadedDoc : Type where
  idlContent : String
  impl : Option String
  genPath : Option String
  deriving Repr, DecidableEq

/-- `Promise.all(files.map(f => fs.readFile(f.idlPath)))`: every read must
succeed, in order, or the whole phase rejects. -/
def readAll (fs : FS) : List FileEntry → Option (List String)
  | [] => some []
  | f :: rest =>
    match fs.readFile f.idlPath, readAll fs rest with
    | some c, some cs => some (c :: cs)
    | _, _ => none

/-- The `for (let i = 0; i < files.length; ++i)` zip loop. -/
def zipLoop : List FileEntry → List String → List LoadedDoc
  | f :: fs, c :: cs => ⟨c, f.impl, f.genPath⟩ :: zipLoop fs cs
  | _, _ => []

def readFiles (fs : FS) (files : List FileEntry) :
    Except String (List LoadedDoc) :=
  match readAll fs files with
  | none => .error "read failure"
  | some contents => .ok (zipLoop files contents)

/-! `Transformer._writeFiles` and `Transformer.generate`

Emission is modelled as the ordered list of file writes the method issues.
Each write records its target path, the `relativeUtils` specifier computed
for it (`none` for the utility-module write) and, for interfaces, the
`implFile` specifier.  The `path.relative` collaborator is a parameter
`rel`; `\\`→`/` normalisation and the `./` forcing follow the source. -/

structure WriteRec : Type where
  path : String
  relativeUtils : Option String
  implFile : Option String
  deriving Repr, DecidableEq

/-- `s.replace(/\\/g, "/")`. -/
def deWin (s : String) : String :=
  String.mk (s.data.map (fun c => if c = '\\' then '/' else c))

/-- `if (s[0] !== ".") s = "./" + s` (the first character of an empty
string is `undefined`, which also differs from `"."`). -/
def forceRel (s : String) : String :=
  match s.data with
  | '.' :: _ => s
  | _ => "./" ++ s

/-- The interface-emission loop: skip `imported` entries; a non-imported
entry with no implementation directory makes `path.relative(outputDir,
undefined)` throw. -/
def writeInterfaces (rel : String → String → String) (outputDir utilPath implSuffix : String) :
    List InterfaceEntry → Except String (List WriteRec)
  | [] => .ok []
  | obj :: rest =>
    if obj.imported then writeInterfaces rel outputDir utilPath implSuffix rest
    else
      match obj.implDir with
      | none => .error "TypeError: path.relative of undefined"
      | some d =>
        let implDir := deWin (rel outputDir d)
        let implFile := forceRel (implDir ++ "/" ++ obj.name ++ implSuffix)
        let relativeUtils := forceRel (deWin (rel outputDir utilPath))
        match writeInterfaces rel outputDir utilPath implSuffix rest with
        | .error e => .error e
        | .ok ws =>
          .ok (⟨pathJoin outputDir (obj.name ++ ".js"), some relativeUtils,
                some (implFile ++ ".js")⟩ :: ws)

/-- The dictionary-emission loop: skip `imported` entries. -/
def writeDictionaries (rel : String → String → String) (outputDir utilPath : String) :
    List DictionaryEntry → List WriteRec
  | [] => []
  | obj :: rest =>
    if obj.imported then writeDictionaries rel outputDir utilPath rest
    else
      let relativeUtils := forceRel (deWin (rel outputDir utilPath))
      ⟨pathJoin outputDir (obj.name ++ ".js"), some relativeUtils, none⟩ ::
        writeDictionaries rel outputDir utilPath rest

/-- `_writeFiles`: the utility module goes to `options.utilPath` first, then
one file per non-imported interface, then one per non-imported dictionary,
iterating each map in insertion order. -/
def writeFilesRun (rel : String → String → String) (reg : Registry)
    (outputDir utilPath implSuffix : String) : Except String (List WriteRec) :=
  match writeInterfaces rel outputDir utilPath implSuffix (reg.interfaces.map Prod.snd) with
  | .error e => .error e
  | .ok ws =>
    .ok (⟨utilPath, none, none⟩ :: ws ++
      writeDictionaries rel outputDir utilPath (reg.dictionaries.map Prod.snd))

/-- `Transformer.generate(outputDir)`: fix `options.utilPath` to
`path.join(outputDir, "utils.js")` if it is still unset, then run the
pipeline; the intermediate collect/load/parse phases are abstracted by the
already-resolved registry `reg`. -/
def generateStep (rel : String → String → String) (st : TransformerState)
    (reg : Registry) (outputDir : String) :
    TransformerState × Except String (List WriteRec) :=
  let up :=
    match st.utilPath with
    | none => pathJoin outputDir "utils.js"
    | some p => p
  let st' := { st with utilPath := some up }
  (st', writeFilesRun rel reg outputDir up st.implSuffix)

/-! Concrete filesystems and registries used as witnesses -/

/-- A filesystem where `d` is a directory directly containing a
*subdirectory* named `sub.idl` and a file `a.txt`, and `f.txt` is a plain
file. -/
def fsC5 : FS :=
  ⟨fun p =>
      if p = "d" then some .dir
      else if p = "d/sub.idl" then some .dir
      else if p = "d/a.txt" then some .file
      else if p = "f.txt" then some .file
      else none,
   fun p => if p = "d" then ["sub.idl", "a.txt"] else [],
   fun _ => none,
   fun _ => none⟩

/-- A filesystem with two module descriptors: one with a `webidl2js`
section listing two IDL files, one without the section. -/
def fsC6 : FS :=
  ⟨fun _ => none, fun _ => [], fun _ => none,
   fun p =>
      if p = "m/package.json" then some ⟨some ⟨"lib", ["a.idl", "b.idl"]⟩⟩
      else if p = "m2/package.json" then some ⟨none⟩
      else none⟩

/-- A filesystem with two readable IDL files and nothing else. -/
def fsC7 : FS :=
  ⟨fun _ => none, fun _ => [],
   fun p =>
      if p = "a.idl" then some "textA"
      else if p = "b.idl" then some "textB"
      else none,
   fun _ => none⟩

/-- A registry with one emitted interface, one imported interface and one
emitted dictionary. -/
def regC8 : Registry :=
  ⟨[("I", ⟨"I", [], [], [], some "impl", none, false⟩),
    ("J", ⟨"J", [], [], [], none, none, true⟩)],
   [("D", ⟨"D", [], [], none, false⟩)], [], []⟩

/-- A registry with a single emitted interface. -/
def regC9 : Registry :=
  ⟨[("I", ⟨"I", [], [], [], some "impl", none, false⟩)], [], [], []⟩

/-! Lemmas about the map primitives -/

theorem mapGet_mapSet_self {α : Type} (m : List (String × α)) (k : String) (v : α) :
    mapGet (mapSet m k v) k = some v := by
  induction m with
  | nil => simp [mapSet, mapGet]
  | cons p rest ih =>
    obtain ⟨k', v'⟩ := p
    by_cases hk : k' = k
    · subst hk
      simp [mapSet, mapGet]
    · simp [mapSet, mapGet, hk, ih]

theorem mapGet_mapSet_ne {α : Type} (m : List (String × α)) (k x : String) (v : α)
    (hkx : ¬k = x) : mapGet (mapSet m k v) x = mapGet m x := by
  induction m with
  | nil => simp [mapSet, mapGet, hkx]
  | cons p rest ih =>
    obtain ⟨k', v'⟩ := p
    by_cases hk : k' = k
    · subst hk
      simp [mapSet, mapGet, hkx]
    · by_cases hx : k' = x
      · subst hx
        simp [mapSet, mapGet, hk]
      · simp [mapSet, mapGet, hk, hx, ih]

theorem mapGet_mapSet {α : Type} (m : List (String × α)) (k x : String) (v : α) :
    mapGet (mapSet m k v) x = if k = x then some v else mapGet m x := by
  by_cases h : k = x
  · subst h
    simp [mapGet_mapSet_self]
  · simp [mapGet_mapSet_ne m k x v h, h]

theorem hasKey_mapSet {α : Type} (m : List (String × α)) (k x : String) (v : α) :
    hasKey (mapSet m k v) x = (k == x || hasKey m x) := by
  by_cases h : k = x
  · subst h
    simp [hasKey, mapGet_mapSet]
  · simp [hasKey, mapGet_mapSet, if_neg h, h]

theorem hasKey_mapSet_same {α : Type} (m : List (String × α)) (k x : String)
    (v : α) (hk : hasKey m k = true) :
    hasKey (mapSet m k v) x = hasKey m x := by
  rw [hasKey_mapSet]
  by_cases h : k = x
  · subst h
    simp [hk]
  · simp [h]

theorem mapGet_eq_none_of_hasKey {α : Type} (m : List (String × α)) (k : String)
    (h : hasKey m k = false) : mapGet m k = none := by
  unfold hasKey at h
  cases hm : mapGet m k with
  | none => rfl
  | some v => rw [hm] at h; simp at h

/-! Which instructions register which names -/

/-- `true` when the instruction is a full (non-partial) interface
declaration named `n`. -/
def declIface (n : String) : Instruction → Bool
  | .iface m isPart _ _ => !isPart && m == n
  | _ => false

/-- `true` when the instruction is a full (non-partial) dictionary
declaration named `n`. -/
def declDict (n : String) : Instruction → Bool
  | .dict m isPart _ _ => !isPart && m == n
  | _ => false

/-- `true` when the instruction registers `n` into `customTypes`. -/
def declAny (n : String) (i : Instruction) : Bool :=
  declIface n i || declDict n i

def docsDeclIface (docs : List ParsedFile) (n : String) : Bool :=
  docs.any (fun f => f.idl.any (declIface n))

def docsDeclDict (docs : List ParsedFile) (n : String) : Bool :=
  docs.any (fun f => f.idl.any (declDict n))

def docsDecl (docs : List ParsedFile) (n : String) : Bool :=
  docs.any (fun f => f.idl.any (declAny n))

theorem any_or_split {α : Type} (l : List α) (p q : α → Bool) :
    l.any (fun i => p i || q i) = (l.any p || l.any q) := by
  induction l with
  | nil => rfl
  | cons a rest ih =>
    simp only [List.any_cons, ih]
    cases p a <;> cases q a <;> simp

theorem docsDecl_split (docs : List ParsedFile) (n : String) :
    docsDecl docs n = (docsDeclIface docs n || docsDeclDict docs n) := by
  have inner : ∀ f : ParsedFile,
      f.idl.any (declAny n) = (f.idl.any (declIface n) || f.idl.any (declDict n)) := by
    intro f
    rw [show declAny n = (fun i => declIface n i || declDict n i) from rfl]
    exact any_or_split f.idl _ _
  unfold docsDecl docsDeclIface docsDeclDict
  calc docs.any (fun f => f.idl.any (declAny n))
      = docs.any (fun f => f.idl.any (declIface n) || f.idl.any (declDict n)) := by
        simp only [inner]
    _ = _ := any_or_split docs _ _

/-! Pass-1 key tracking -/

theorem pass1Step_keys (s : Bool) (od : String) (im gp : Option String)
    (reg : Registry) (i : Instruction) (r : Registry)
    (h : pass1Step s od im gp reg i = .ok r) (n : String) :
    hasKey r.interfaces n = (declIface n i || hasKey reg.interfaces n) ∧
    hasKey r.dictionaries n = (declDict n i || hasKey reg.dictionaries n) ∧
    hasKey r.customTypes n = (declAny n i || hasKey reg.customTypes n) := by
  cases i with
  | iface m isPart ms ea =>
    cases isPart with
    | true =>
      simp [pass1Step] at h
      subst h
      simp [declIface, declDict, declAny]
    | false =>
      simp [pass1Step] at h
      subst h
      simp [declIface, declDict, declAny, hasKey_mapSet]
  | dict m isPart ms ea =>
    cases isPart with
    | true =>
      simp [pass1Step] at h
      subst h
      simp [declIface, declDict, declAny]
    | false =>
      simp [pass1Step] at h
      subst h
      simp [declIface, declDict, declAny, hasKey_mapSet]
  | impls t src =>
    simp [pass1Step] at h
    subst h
    simp [declIface, declDict, declAny]
  | tdef m =>
    simp [pass1Step] at h
    subst h
    simp [declIface, declDict, declAny]
  | other ty =>
    cases s with
    | true =>
      simp [pass1Step] at h
      subst h
      simp [declIface, declDict, declAny]
    | false => simp [pass1Step] at h

theorem runP1Instrs_keys (s : Bool) (od : String) (im gp : Option String)
    (l : List Instruction) :
    ∀ reg r, runP1Instrs s od im gp reg l = .ok r → ∀ n,
    hasKey r.interfaces n = (l.any (declIface n) || hasKey reg.interfaces n) ∧
    hasKey r.dictionaries n = (l.any (declDict n) || hasKey reg.dictionaries n) ∧
    hasKey r.customTypes n = (l.any (declAny n) || hasKey reg.customTypes n) := by
  induction l with
  | nil =>
    intro reg r h n
    simp [runP1Instrs] at h
    subst h
    simp
  | cons i rest ih =>
    intro reg r h n
    rw [runP1Instrs] at h
    cases hs : pass1Step s od im gp reg i with
    | error e => rw [hs] at h; exact absurd h (by simp)
    | ok r1 =>
      rw [hs] at h
      obtain ⟨h1, h2, h3⟩ := pass1Step_keys s od im gp reg i r1 hs n
      obtain ⟨g1, g2, g3⟩ := ih r1 r h n
      refine ⟨?_, ?_, ?_⟩ <;>
        simp [List.any_cons, g1, g2, g3, h1, h2, h3, Bool.or_assoc,
          Bool.or_comm, Bool.or_left_comm]

theorem runPass1_keys (s : Bool) (od : String) (docs : List ParsedFile) :
    ∀ reg r, runPass1 s od reg docs = .ok r → ∀ n,
    hasKey r.interfaces n = (docsDeclIface docs n || hasKey reg.interfaces n) ∧
    hasKey r.dictionaries n = (docsDeclDict docs n || hasKey reg.dictionaries n) ∧
    hasKey r.customTypes n = (docsDecl docs n || hasKey reg.customTypes n) := by
  induction docs with
  | nil =>
    intro reg r h n
    simp [runPass1] at h
    subst h
    simp [docsDeclIface, docsDeclDict, docsDecl]
  | cons f rest ih =>
    intro reg r h n
    rw [runPass1] at h
    cases hs : runP1Instrs s od f.impl f.genPath reg f.idl with
    | error e => rw [hs] at h; exact absurd h (by simp)
    | ok r1 =>
      rw [hs] at h
      obtain ⟨h1, h2, h3⟩ := runP1Instrs_keys s od f.impl f.genPath f.idl reg r1 hs n
      obtain ⟨g1, g2, g3⟩ := ih r1 r h n
      refine ⟨?_, ?_, ?_⟩ <;>
        simp [docsDeclIface, docsDeclDict, docsDecl, List.any_cons,
          g1, g2, g3, h1, h2, h3, Bool.or_assoc, Bool.or_comm, Bool.or_left_comm]

/-! Pass-2 key preservation

Pass 2 only rewrites values stored under keys that are already present, so
the key sets of all three kind maps and the whole `customTypes` index are
unchanged. -/

theorem pass2Step_keys (s : Bool) (reg : Registry) (i : Instruction) (r : Registry)
    (h : pass2Step s reg i = .ok r) :
    (∀ n, hasKey r.interfaces n = hasKey reg.interfaces n) ∧
    (∀ n, hasKey r.dictionaries n = hasKey reg.dictionaries n) ∧
    r.customTypes = reg.customTypes := by
  cases i with
  | iface n isPart ms ea =>
    cases isPart with
    | false =>
      simp [pass2Step] at h
      subst h
      simp
    | true =>
      cases hm : mapGet reg.interfaces n with
      | none =>
        cases s with
        | true =>
          simp [pass2Step, hm] at h
          subst h
          simp
        | false => simp [pass2Step, hm] at h
      | some obj =>
        simp [pass2Step, hm] at h
        subst h
        have hk : hasKey reg.interfaces n = true := by simp [hasKey, hm]
        exact ⟨fun x => hasKey_mapSet_same reg.interfaces n x _ hk, fun _ => rfl, rfl⟩
  | dict n isPart ms ea =>
    cases isPart with
    | false =>
      simp [pass2Step] at h
      subst h
      simp
    | true =>
      cases hm : mapGet reg.dictionaries n with
      | none =>
        cases s with
        | true =>
          simp [pass2Step, hm] at h
          subst h
          simp
        | false => simp [pass2Step, hm] at h
      | some obj =>
        simp [pass2Step, hm] at h
        subst h
        have hk : hasKey reg.dictionaries n = true := by simp [hasKey, hm]
        exact ⟨fun _ => rfl, fun x => hasKey_mapSet_same reg.dictionaries n x _ hk, rfl⟩
  | impls t src =>
    cases hm : mapGet reg.interfaces t with
    | none =>
      cases s with
      | true =>
        simp [pass2Step, hm] at h
        subst h
        simp
      | false => simp [pass2Step, hm] at h
    | some obj =>
      simp [pass2Step, hm] at h
      subst h
      have hk : hasKey reg.interfaces t = true := by simp [hasKey, hm]
      exact ⟨fun x => hasKey_mapSet_same reg.interfaces t x _ hk, fun _ => rfl, rfl⟩
  | tdef m =>
    simp [pass2Step] at h
    subst h
    simp
  | other ty =>
    simp [pass2Step] at h
    subst h
    simp

theorem runP2Instrs_keys (s : Bool) (l : List Instruction) :
    ∀ reg r, runP2Instrs s reg l = .ok r →
    (∀ n, hasKey r.interfaces n = hasKey reg.interfaces n) ∧
    (∀ n, hasKey r.dictionaries n = hasKey reg.dictionaries n) ∧
    r.customTypes = reg.customTypes := by
  induction l with
  | nil =>
    intro reg r h
    simp [runP2Instrs] at h
    subst h
    simp
  | cons i rest ih =>
    intro reg r h
    rw [runP2Instrs] at h
    cases hs : pass2Step s reg i with
    | error e => rw [hs] at h; exact absurd h (by simp)
    | ok r1 =>
      rw [hs] at h
      obtain ⟨h1, h2, h3⟩ := pass2Step_keys s reg i r1 hs
      obtain ⟨g1, g2, g3⟩ := ih r1 r h
      exact ⟨fun n => (g1 n).trans (h1 n), fun n => (g2 n).trans (h2 n), g3.trans h3⟩

theorem runPass2_keys (s : Bool) (docs : List ParsedFile) :
    ∀ reg r, runPass2 s reg docs = .ok r →
    (∀ n, hasKey r.interfaces n = hasKey reg.interfaces n) ∧
    (∀ n, hasKey r.dictionaries n = hasKey reg.dictionaries n) ∧
    r.customTypes = reg.customTypes := by
  induction docs with
  | nil =>
    intro reg r h
    simp [runPass2] at h
    subst h
    simp
  | cons f rest ih =>
    intro reg r h
    rw [runPass2] at h
    cases hs : runP2Instrs s reg f.idl with
    | error e => rw [hs] at h; exact absurd h (by simp)
    | ok r1 =>
      rw [hs] at h
      obtain ⟨h1, h2, h3⟩ := runP2Instrs_keys s f.idl reg r1 hs
      obtain ⟨g1, g2, g3⟩ := ih r1 r h
      exact ⟨fun n => (g1 n).trans (h1 n), fun n => (g2 n).trans (h2 n), g3.trans h3⟩

/-! Removing an effect-free instruction, and guaranteed failures

These lemmas support the error-policy claim: an instruction whose step is
the identity can be dropped from a document without changing either pass,
and an instruction whose step always fails makes the whole pass fail. -/

theorem runP1Instrs_skip (s : Bool) (od : String) (im gp : Option String)
    (bad : Instruction) (hbad : ∀ r, pass1Step s od im gp r bad = .ok r)
    (pre post : List Instruction) :
    ∀ reg, runP1Instrs s od im gp reg (pre ++ bad :: post) =
      runP1Instrs s od im gp reg (pre ++ post) := by
  induction pre with
  | nil =>
    intro reg
    simp only [List.nil_append, runP1Instrs, hbad reg]
  | cons x xs ih =>
    intro reg
    simp only [List.cons_append, runP1Instrs]
    cases h : pass1Step s od im gp reg x with
    | error e => simp [h]
    | ok r =>
      simp only [h]
      exact ih r

theorem runPass1_file_eq (s : Bool) (od : String) (docsA docsB : List ParsedFile)
    (f1 f2 : ParsedFile)
    (h : ∀ reg, runP1Instrs s od f1.impl f1.genPath reg f1.idl =
      runP1Instrs s od f2.impl f2.genPath reg f2.idl) :
    ∀ reg, runPass1 s od reg (docsA ++ f1 :: docsB) =
      runPass1 s od reg (docsA ++ f2 :: docsB) := by
  induction docsA with
  | nil =>
    intro reg
    simp only [List.nil_append, runPass1]
    rw [h reg]
  | cons d ds ih =>
    intro reg
    simp only [List.cons_append, runPass1]
    cases hd : runP1Instrs s od d.impl d.genPath reg d.idl with
    | error e => simp [hd]
    | ok r =>
      simp only [hd]
      exact ih r

theorem runP2Instrs_skip_cond (s : Bool) (P : Registry → Prop)
    (hpres : ∀ reg i r, pass2Step s reg i = .ok r → P reg → P r)
    (bad : Instruction) (hbad : ∀ r, P r → pass2Step s r bad = .ok r)
    (pre post : List Instruction) :
    ∀ reg, P reg → runP2Instrs s reg (pre ++ bad :: post) =
      runP2Instrs s reg (pre ++ post) := by
  induction pre with
  | nil =>
    intro reg hP
    simp only [List.nil_append, runP2Instrs, hbad reg hP]
  | cons x xs ih =>
    intro reg hP
    simp only [List.cons_append, runP2Instrs]
    cases h : pass2Step s reg x with
    | error e => simp [h]
    | ok r =>
      simp only [h]
      exact ih r (hpres reg x r h hP)

theorem runPass2_file_eq_cond (s : Bool) (P : Registry → Prop)
    (hpresL : ∀ reg r l, runP2Instrs s reg l = .ok r → P reg → P r)
    (docsA docsB : List ParsedFile) (idl1 idl2 : List Instruction)
    (im gp : Option String)
    (hfile : ∀ reg, P reg → runP2Instrs s reg idl1 = runP2Instrs s reg idl2) :
    ∀ reg, P reg → runPass2 s reg (docsA ++ ⟨idl1, im, gp⟩ :: docsB) =
      runPass2 s reg (docsA ++ ⟨idl2, im, gp⟩ :: docsB) := by
  induction docsA with
  | nil =>
    intro reg hP
    simp only [List.nil_append, runPass2]
    rw [hfile reg hP]
  | cons d ds ih =>
    intro reg hP
    simp only [List.cons_append, runPass2]
    cases hd : runP2Instrs s reg d.idl with
    | error e => simp [hd]
    | ok r =>
      simp only [hd]
      exact ih r (hpresL reg r d.idl hd hP)

theorem runP1Instrs_other_bad (od : String) (im gp : Option String) (ty : String)
    (pre post : List Instruction) :
    ∀ reg, exceptOk (runP1Instrs false od im gp reg (pre ++ .other ty :: post)) = false := by
  induction pre with
  | nil =>
    intro reg
    simp [runP1Instrs, pass1Step, exceptOk]
  | cons x xs ih =>
    intro reg
    simp only [List.cons_append, runP1Instrs]
    cases h : pass1Step false od im gp reg x with
    | error e => simp [exceptOk]
    | ok r =>
      simp only [h]
      exact ih r

theorem runPass1_file_bad (s : Bool) (od : String) (docsA docsB : List ParsedFile)
    (f : ParsedFile)
    (hf : ∀ reg, exceptOk (runP1Instrs s od f.impl f.genPath reg f.idl) = false) :
    ∀ reg, exceptOk (runPass1 s od reg (docsA ++ f :: docsB)) = false := by
  induction docsA with
  | nil =>
    intro reg
    simp only [List.nil_append, runPass1]
    cases h : runP1Instrs s od f.impl f.genPath reg f.idl with
    | error e => simp [exceptOk]
    | ok r =>
      have := hf reg
      rw [h] at this
      simp [exceptOk] at this
  | cons d ds ih =>
    intro reg
    simp only [List.cons_append, runPass1]
    cases h : runP1Instrs s od d.impl d.genPath reg d.idl with
    | error e => simp [exceptOk]
    | ok r =>
      simp only [h]
      exact ih r

theorem runP2Instrs_iface_bad (n : String) (ms ea : List String)
    (pre post : List Instruction) :
    ∀ reg, hasKey reg.interfaces n = false →
      exceptOk (runP2Instrs false reg (pre ++ .iface n true ms ea :: post)) = false := by
  induction pre with
  | nil =>
    intro reg hn
    have hm := mapGet_eq_none_of_hasKey reg.interfaces n hn
    simp [runP2Instrs, pass2Step, hm, exceptOk]
  | cons x xs ih =>
    intro reg hn
    simp only [List.cons_append, runP2Instrs]
    cases h : pass2Step false reg x with
    | error e => simp [exceptOk]
    | ok r =>
      simp only [h]
      exact ih r (((pass2Step_keys false reg x r h).1 n).trans hn)

theorem runP2Instrs_dict_bad (n : String) (ms ea : List String)
    (pre post : List Instruction) :
    ∀ reg, hasKey reg.dictionaries n = false →
      exceptOk (runP2Instrs false reg (pre ++ .dict n true ms ea :: post)) = false := by
  induction pre with
  | nil =>
    intro reg hn
    have hm := mapGet_eq_none_of_hasKey reg.dictionaries n hn
    simp [runP2Instrs, pass2Step, hm, exceptOk]
  | cons x xs ih =>
    intro reg hn
    simp only [List.cons_append, runP2Instrs]
    cases h : pass2Step false reg x with
    | error e => simp [exceptOk]
    | ok r =>
      simp only [h]
      exact ih r (((pass2Step_keys false reg x r h).2.1 n).trans hn)

theorem runP2Instrs_impls_bad (t srcN : String) (pre post : List Instruction) :
    ∀ reg, hasKey reg.interfaces t = false →
      exceptOk (runP2Instrs false reg (pre ++ .impls t srcN :: post)) = false := by
  induction pre with
  | nil =>
    intro reg hn
    have hm := mapGet_eq_none_of_hasKey reg.interfaces t hn
    simp [runP2Instrs, pass2Step, hm, exceptOk]
  | cons x xs ih =>
    intro reg hn
    simp only [List.cons_append, runP2Instrs]
    cases h : pass2Step false reg x with
    | error e => simp [exceptOk]
    | ok r =>
      simp only [h]
      exact ih r (((pass2Step_keys false reg x r h).1 t).trans hn)

theorem runPass2_file_bad (P : Registry → Prop)
    (hpresL : ∀ reg r l, runP2Instrs false reg l = .ok r → P reg → P r)
    (docsA docsB : List ParsedFile) (f : ParsedFile)
    (hf : ∀ reg, P reg → exceptOk (runP2Instrs false reg f.idl) = false) :
    ∀ reg, P reg → exceptOk (runPass2 false reg (docsA ++ f :: docsB)) = false := by
  induction docsA with
  | nil =>
    intro reg hP
    simp only [List.nil_append, runPass2]
    cases h : runP2Instrs false reg f.idl with
    | error e => simp [exceptOk]
    | ok r =>
      have := hf reg hP
      rw [h] at this
      simp [exceptOk] at this
  | cons d ds ih =>
    intro reg hP
    simp only [List.cons_append, runPass2]
    cases h : runP2Instrs false reg d.idl with
    | error e => simp [exceptOk]
    | ok r =>
      simp only [h]
      exact ih r (hpresL reg r d.idl h hP)

theorem parse_p1_bad (s : Bool) (od : String) (docs : List ParsedFile)
    (h : exceptOk (runPass1 s od emptyRegistry docs) = false) :
    exceptOk (parseDocs s od docs) = false := by
  unfold parseDocs
  cases hh : runPass1 s od emptyRegistry docs with
  | error e => simp [exceptOk]
  | ok r =>
    rw [hh] at h
    simp [exceptOk] at h

theorem parse_p2_bad (s : Bool) (od : String) (docs : List ParsedFile)
    (h : ∀ r1, runPass1 s od emptyRegistry docs = .ok r1 →
      exceptOk (runPass2 s r1 docs) = false) :
    exceptOk (parseDocs s od docs) = false := by
  unfold parseDocs
  cases hh : runPass1 s od emptyRegistry docs with
  | error e => simp [exceptOk]
  | ok r => exact h r hh

-- sanity checks (end-to-end scenario of spec §8)
example :
    (parseDocs false "out"
      [⟨[.iface "Foo" false ["x"] []], some "impl", none⟩,
       ⟨[.iface "Foo" true ["y"] [], .iface "Bar" false [] [],
         .impls "Bar" "Foo"], some "impl", none⟩]).map
      (fun r => ((mapGet r.interfaces "Foo").map (fun e => e.members),
                 (mapGet r.interfaces "Bar").map (fun e => e.mixins),
                 mapGet r.customTypes "Foo", mapGet r.customTypes "Bar"))
    = .ok (some ["x", "y"], some ["Foo"], some "interface", some "interface") := by
  rfl

/-! Claim C1 -/

/-- C1 fails on the code: registering `interface A` in one document and
`dictionary A` in another leaves `A` present in *both* kind-specific maps,
while the combined `customTypes` index records only the last-registered
kind (`"dictionary"`) — the code never removes the stale interface entry. -/
theorem c1_counterexample :
    (parseDocs false "out"
      [⟨[.iface "A" false [] []], none, none⟩,
       ⟨[.dict "A" false [] []], none, none⟩]).map
      (fun r => (hasKey r.interfaces "A", hasKey r.dictionaries "A",
                 mapGet r.customTypes "A"))
    = .ok (true, true, some "dictionary") := by
  rfl

/-- C1 (amended): after the two passes complete, the combined `customTypes`
index contains exactly the names of the non-partial interface and
dictionary declarations across all processed documents, and its key set
equals the union of the key sets of the interfaces and dictionaries maps;
however a name may occur in both kind-specific maps at once (with
`customTypes` recording the kind registered last), so "at most one
kind-specific map" does not hold. -/
theorem c1_corrected (s : Bool) (od : String) (docs : List ParsedFile)
    (reg : Registry) (n : String) (h : parseDocs s od docs = .ok reg) :
    hasKey reg.customTypes n = docsDecl docs n ∧
    hasKey reg.customTypes n = (hasKey reg.interfaces n || hasKey reg.dictionaries n) := by
  unfold parseDocs at h
  cases h1 : runPass1 s od emptyRegistry docs with
  | error e => rw [h1] at h; exact absurd h (by simp)
  | ok r1 =>
    rw [h1] at h
    obtain ⟨k1, k2, k3⟩ := runPass1_keys s od docs emptyRegistry r1 h1 n
    obtain ⟨p1, p2, p3⟩ := runPass2_keys s docs r1 reg h
    have hct : hasKey reg.customTypes n = docsDecl docs n := by
      rw [p3, k3]
      simp [emptyRegistry, hasKey, mapGet]
    refine ⟨hct, ?_⟩
    rw [hct, p1 n, p2 n, k1, k2, docsDecl_split]
    simp [emptyRegistry, hasKey, mapGet]

/-- Witness for C1 at a concrete input. -/
theorem c1_witness :
    parseDocs false "o" [⟨[.iface "A" false [] []], none, none⟩] =
      .ok ⟨[("A", ⟨"A", [], [], [], none, none, false⟩)], [], [], [("A", "interface")]⟩ ∧
    (hasKey (Registry.mk [("A", ⟨"A", [], [], [], none, none, false⟩)] [] [] [("A", "interface")]).customTypes "A" =
        docsDecl [⟨[.iface "A" false [] []], none, none⟩] "A" ∧
      hasKey (Registry.mk [("A", ⟨"A", [], [], [], none, none, false⟩)] [] [] [("A", "interface")]).customTypes "A" =
        (hasKey (Registry.mk [("A", ⟨"A", [], [], [], none, none, false⟩)] [] [] [("A", "interface")]).interfaces "A" ||
         hasKey (Registry.mk [("A", ⟨"A", [], [], [], none, none, false⟩)] [] [] [("A", "interface")]).dictionaries "A")) :=
  ⟨by rfl,
   c1_corrected false "o" [⟨[.iface "A" false [] []], none, none⟩]
     (Registry.mk [("A", ⟨"A", [], [], [], none, none, false⟩)] [] [] [("A", "interface")])
     "A" (by rfl)⟩

/-! Claim C3 -/

/-- C3: for an unrecognized instruction kind, a partial interface or
dictionary with no matching full definition, or an `implements` whose
target is unregistered, at any position in any document: with
`suppressErrors` off resolution fails, and with `suppressErrors` on the
result equals resolving the same input with that instruction omitted. -/
theorem c3_confirmed
    (docsA docsB : List ParsedFile) (pre post : List Instruction)
    (im gp : Option String) (od ty : String)
    (n : String) (ms ea : List String)
    (n2 : String) (ms2 ea2 : List String)
    (tt srcN : String)
    (hIf : docsDeclIface
      (docsA ++ ⟨pre ++ .iface n true ms ea :: post, im, gp⟩ :: docsB) n = false)
    (hDt : docsDeclDict
      (docsA ++ ⟨pre ++ .dict n2 true ms2 ea2 :: post, im, gp⟩ :: docsB) n2 = false)
    (hIm : docsDeclIface
      (docsA ++ ⟨pre ++ .impls tt srcN :: post, im, gp⟩ :: docsB) tt = false) :
    (exceptOk (parseDocs false od
        (docsA ++ ⟨pre ++ .other ty :: post, im, gp⟩ :: docsB)) = false ∧
      parseDocs true od (docsA ++ ⟨pre ++ .other ty :: post, im, gp⟩ :: docsB) =
        parseDocs true od (docsA ++ ⟨pre ++ post, im, gp⟩ :: docsB)) ∧
    (exceptOk (parseDocs false od
        (docsA ++ ⟨pre ++ .iface n true ms ea :: post, im, gp⟩ :: docsB)) = false ∧
      parseDocs true od (docsA ++ ⟨pre ++ .iface n true ms ea :: post, im, gp⟩ :: docsB) =
        parseDocs true od (docsA ++ ⟨pre ++ post, im, gp⟩ :: docsB)) ∧
    (exceptOk (parseDocs false od
        (docsA ++ ⟨pre ++ .dict n2 true ms2 ea2 :: post, im, gp⟩ :: docsB)) = false ∧
      parseDocs true od (docsA ++ ⟨pre ++ .dict n2 true ms2 ea2 :: post, im, gp⟩ :: docsB) =
        parseDocs true od (docsA ++ ⟨pre ++ post, im, gp⟩ :: docsB)) ∧
    (exceptOk (parseDocs false od
        (docsA ++ ⟨pre ++ .impls tt srcN :: post, im, gp⟩ :: docsB)) = false ∧
      parseDocs true od (docsA ++ ⟨pre ++ .impls tt srcN :: post, im, gp⟩ :: docsB) =
        parseDocs true od (docsA ++ ⟨pre ++ post, im, gp⟩ :: docsB)) := by
  refine ⟨⟨?_, ?_⟩, ⟨?_, ?_⟩, ⟨?_, ?_⟩, ⟨?_, ?_⟩⟩
  · -- unrecognized kind, strict: pass 1 throws
    apply parse_p1_bad
    exact runPass1_file_bad false od docsA docsB ⟨pre ++ .other ty :: post, im, gp⟩
      (fun reg => runP1Instrs_other_bad od im gp ty pre post reg) emptyRegistry
  · -- unrecognized kind, relaxed: both passes skip it
    unfold parseDocs
    have h1 := runPass1_file_eq true od docsA docsB
      ⟨pre ++ .other ty :: post, im, gp⟩ ⟨pre ++ post, im, gp⟩
      (fun reg => runP1Instrs_skip true od im gp (.other ty) (fun r => rfl) pre post reg)
      emptyRegistry
    rw [h1]
    cases h2 : runPass1 true od emptyRegistry (docsA ++ ⟨pre ++ post, im, gp⟩ :: docsB) with
    | error e => rfl
    | ok r1 =>
      exact runPass2_file_eq_cond true (fun _ => True) (fun _ _ _ _ _ => trivial)
        docsA docsB (pre ++ .other ty :: post) (pre ++ post) im gp
        (fun reg _ => runP2Instrs_skip_cond true (fun _ => True) (fun _ _ _ _ _ => trivial)
          (.other ty) (fun r _ => rfl) pre post reg trivial) r1 trivial
  · -- dangling partial interface, strict: pass 2 throws
    apply parse_p2_bad
    intro r1 h1
    have hkey : hasKey r1.interfaces n = false := by
      have k := (runPass1_keys false od
        (docsA ++ ⟨pre ++ .iface n true ms ea :: post, im, gp⟩ :: docsB)
        emptyRegistry r1 h1 n).1
      rw [k, hIf]
      simp [emptyRegistry, hasKey, mapGet]
    exact runPass2_file_bad (fun r => hasKey r.interfaces n = false)
      (fun reg r l h hP => ((runP2Instrs_keys false l reg r h).1 n).trans hP)
      docsA docsB ⟨pre ++ .iface n true ms ea :: post, im, gp⟩
      (fun reg hP => runP2Instrs_iface_bad n ms ea pre post reg hP) r1 hkey
  · -- dangling partial interface, relaxed
    unfold parseDocs
    have h1 := runPass1_file_eq true od docsA docsB
      ⟨pre ++ .iface n true ms ea :: post, im, gp⟩ ⟨pre ++ post, im, gp⟩
      (fun reg => runP1Instrs_skip true od im gp (.iface n true ms ea)
        (fun r => rfl) pre post reg)
      emptyRegistry
    rw [h1]
    cases h2 : runPass1 true od emptyRegistry (docsA ++ ⟨pre ++ post, im, gp⟩ :: docsB) with
    | error e => rfl
    | ok r1 =>
      have hW : runPass1 true od emptyRegistry
          (docsA ++ ⟨pre ++ .iface n true ms ea :: post, im, gp⟩ :: docsB) = .ok r1 :=
        h1.trans h2
      have hkey : hasKey r1.interfaces n = false := by
        have k := (runPass1_keys true od
          (docsA ++ ⟨pre ++ .iface n true ms ea :: post, im, gp⟩ :: docsB)
          emptyRegistry r1 hW n).1
        rw [k, hIf]
        simp [emptyRegistry, hasKey, mapGet]
      exact runPass2_file_eq_cond true (fun r => hasKey r.interfaces n = false)
        (fun reg r l h hP => ((runP2Instrs_keys true l reg r h).1 n).trans hP)
        docsA docsB (pre ++ .iface n true ms ea :: post) (pre ++ post) im gp
        (fun reg hP => runP2Instrs_skip_cond true (fun r => hasKey r.interfaces n = false)
          (fun reg2 i r2 h hP2 => ((pass2Step_keys true reg2 i r2 h).1 n).trans hP2)
          (.iface n true ms ea)
          (fun r hP2 => by
            simp [pass2Step, mapGet_eq_none_of_hasKey r.interfaces n hP2])
          pre post reg hP) r1 hkey
  · -- dangling partial dictionary, strict
    apply parse_p2_bad
    intro r1 h1
    have hkey : hasKey r1.dictionaries n2 = false := by
      have k := (runPass1_keys false od
        (docsA ++ ⟨pre ++ .dict n2 true ms2 ea2 :: post, im, gp⟩ :: docsB)
        emptyRegistry r1 h1 n2).2.1
      rw [k, hDt]
      simp [emptyRegistry, hasKey, mapGet]
    exact runPass2_file_bad (fun r => hasKey r.dictionaries n2 = false)
      (fun reg r l h hP => ((runP2Instrs_keys false l reg r h).2.1 n2).trans hP)
      docsA docsB ⟨pre ++ .dict n2 true ms2 ea2 :: post, im, gp⟩
      (fun reg hP => runP2Instrs_dict_bad n2 ms2 ea2 pre post reg hP) r1 hkey
  · -- dangling partial dictionary, relaxed
    unfold parseDocs
    have h1 := runPass1_file_eq true od docsA docsB
      ⟨pre ++ .dict n2 true ms2 ea2 :: post, im, gp⟩ ⟨pre ++ post, im, gp⟩
      (fun reg => runP1Instrs_skip true od im gp (.dict n2 true ms2 ea2)
        (fun r => rfl) pre post reg)
      emptyRegistry
    rw [h1]
    cases h2 : runPass1 true od emptyRegistry (docsA ++ ⟨pre ++ post, im, gp⟩ :: docsB) with
    | error e => rfl
    | ok r1 =>
      have hW : runPass1 true od emptyRegistry
          (docsA ++ ⟨pre ++ .dict n2 true ms2 ea2 :: post, im, gp⟩ :: docsB) = .ok r1 :=
        h1.trans h2
      have hkey : hasKey r1.dictionaries n2 = false := by
        have k := (runPass1_keys true od
          (docsA ++ ⟨pre ++ .dict n2 true ms2 ea2 :: post, im, gp⟩ :: docsB)
          emptyRegistry r1 hW n2).2.1
        rw [k, hDt]
        simp [emptyRegistry, hasKey, mapGet]
      exact runPass2_file_eq_cond true (fun r => hasKey r.dictionaries n2 = false)
        (fun reg r l h hP => ((runP2Instrs_keys true l reg r h).2.1 n2).trans hP)
        docsA docsB (pre ++ .dict n2 true ms2 ea2 :: post) (pre ++ post) im gp
        (fun reg hP => runP2Instrs_skip_cond true (fun r => hasKey r.dictionaries n2 = false)
          (fun reg2 i r2 h hP2 => ((pass2Step_keys true reg2 i r2 h).2.1 n2).trans hP2)
          (.dict n2 true ms2 ea2)
          (fun r hP2 => by
            simp [pass2Step, mapGet_eq_none_of_hasKey r.dictionaries n2 hP2])
          pre post reg hP) r1 hkey
  · -- implements with unregistered target, strict
    apply parse_p2_bad
    intro r1 h1
    have hkey : hasKey r1.interfaces tt = false := by
      have k := (runPass1_keys false od
        (docsA ++ ⟨pre ++ .impls tt srcN :: post, im, gp⟩ :: docsB)
        emptyRegistry r1 h1 tt).1
      rw [k, hIm]
      simp [emptyRegistry, hasKey, mapGet]
    exact runPass2_file_bad (fun r => hasKey r.interfaces tt = false)
      (fun reg r l h hP => ((runP2Instrs_keys false l reg r h).1 tt).trans hP)
      docsA docsB ⟨pre ++ .impls tt srcN :: post, im, gp⟩
      (fun reg hP => runP2Instrs_impls_bad tt srcN pre post reg hP) r1 hkey
  · -- implements with unregistered target, relaxed
    unfold parseDocs
    have h1 := runPass1_file_eq true od docsA docsB
      ⟨pre ++ .impls tt srcN :: post, im, gp⟩ ⟨pre ++ post, im, gp⟩
      (fun reg => runP1Instrs_skip true od im gp (.impls tt srcN)
        (fun r => rfl) pre post reg)
      emptyRegistry
    rw [h1]
    cases h2 : runPass1 true od emptyRegistry (docsA ++ ⟨pre ++ post, im, gp⟩ :: docsB) with
    | error e => rfl
    | ok r1 =>
      have hW : runPass1 true od emptyRegistry
          (docsA ++ ⟨pre ++ .impls tt srcN :: post, im, gp⟩ :: docsB) = .ok r1 :=
        h1.trans h2
      have hkey : hasKey r1.interfaces tt = false := by
        have k := (runPass1_keys true od
          (docsA ++ ⟨pre ++ .impls tt srcN :: post, im, gp⟩ :: docsB)
          emptyRegistry r1 hW tt).1
        rw [k, hIm]
        simp [emptyRegistry, hasKey, mapGet]
      exact runPass2_file_eq_cond true (fun r => hasKey r.interfaces tt = false)
        (fun reg r l h hP => ((runP2Instrs_keys true l reg r h).1 tt).trans hP)
        docsA docsB (pre ++ .impls tt srcN :: post) (pre ++ post) im gp
        (fun reg hP => runP2Instrs_skip_cond true (fun r => hasKey r.interfaces tt = false)
          (fun reg2 i r2 h hP2 => ((pass2Step_keys true reg2 i r2 h).1 tt).trans hP2)
          (.impls tt srcN)
          (fun r hP2 => by
            simp [pass2Step, mapGet_eq_none_of_hasKey r.interfaces tt hP2])
          pre post reg hP) r1 hkey

/-- Witness for C3 at concrete inputs. -/
theorem c3_witness :
    (docsDeclIface [⟨[.iface "A" true ["m"] []], none, none⟩] "A" = false ∧
     docsDeclDict [⟨[.dict "B" true [] []], none, none⟩] "B" = false ∧
     docsDeclIface [⟨[.impls "T" "S"], none, none⟩] "T" = false) ∧
    ((exceptOk (parseDocs false "o" [⟨[.other "enum"], none, none⟩]) = false ∧
      parseDocs true "o" [⟨[.other "enum"], none, none⟩] =
        parseDocs true "o" [⟨[], none, none⟩]) ∧
     (exceptOk (parseDocs false "o" [⟨[.iface "A" true ["m"] []], none, none⟩]) = false ∧
      parseDocs true "o" [⟨[.iface "A" true ["m"] []], none, none⟩] =
        parseDocs true "o" [⟨[], none, none⟩]) ∧
     (exceptOk (parseDocs false "o" [⟨[.dict "B" true [] []], none, none⟩]) = false ∧
      parseDocs true "o" [⟨[.dict "B" true [] []], none, none⟩] =
        parseDocs true "o" [⟨[], none, none⟩]) ∧
     (exceptOk (parseDocs false "o" [⟨[.impls "T" "S"], none, none⟩]) = false ∧
      parseDocs true "o" [⟨[.impls "T" "S"], none, none⟩] =
        parseDocs true "o" [⟨[], none, none⟩])) :=
  ⟨⟨by decide, by decide, by decide⟩,
   c3_confirmed [] [] [] [] none none "o" "enum" "A" ["m"] [] "B" [] [] "T" "S"
     (by decide) (by decide) (by decide)⟩

/-! Claim C2 -/

/-- C2: feeding a full interface and a partial interface of the same name
in either document order yields a registry entry whose member list is the
full definition's members followed by the partial's members, regardless of
`suppressErrors`. -/
theorem c2_confirmed (s : Bool) (od : String) (n : String)
    (ms1 ms2 ea1 ea2 : List String) (im1 gp1 im2 gp2 : Option String) :
    (parseDocs s od
        [⟨[.iface n false ms1 ea1], im1, gp1⟩,
         ⟨[.iface n true ms2 ea2], im2, gp2⟩]).map
      (fun r => (mapGet r.interfaces n).map (fun e => e.members))
      = .ok (some (ms1 ++ ms2)) ∧
    (parseDocs s od
        [⟨[.iface n true ms2 ea2], im2, gp2⟩,
         ⟨[.iface n false ms1 ea1], im1, gp1⟩]).map
      (fun r => (mapGet r.interfaces n).map (fun e => e.members))
      = .ok (some (ms1 ++ ms2)) := by
  refine ⟨?_, ?_⟩ <;>
    simp [parseDocs, runPass1, runP1Instrs, pass1Step, runPass2, runP2Instrs,
      pass2Step, mapGet, mapSet, emptyRegistry, Except.map]

/-! Claim C10 -/

/-- C10: an `implements` instruction whose target is registered records the
mixin source name on the target, with no check that an interface of the
source name exists and no error in either mode: afterwards the source name
is present in the interfaces map only when it coincides with the target. -/
theorem c10_confirmed (s : Bool) (od : String) (T S : String)
    (ms ea : List String) (im gp : Option String) :
    (parseDocs s od [⟨[.iface T false ms ea, .impls T S], im, gp⟩]).map
      (fun r => ((mapGet r.interfaces T).map (fun e => e.mixins),
                 hasKey r.interfaces S == (S == T)))
    = .ok (some [S], true) := by
  by_cases hTS : T = S
  · subst hTS
    simp [parseDocs, runPass1, runP1Instrs, pass1Step, runPass2, runP2Instrs,
      pass2Step, mapGet, mapSet, emptyRegistry, hasKey, Except.map]
  · have hST : (S == T) = false := by
      simp only [beq_eq_false_iff_ne, ne_eq]
      exact fun h => hTS h.symm
    simp [parseDocs, runPass1, runP1Instrs, pass1Step, runPass2, runP2Instrs,
      pass2Step, mapGet, mapSet, emptyRegistry, hasKey, hTS, hST, Except.map]

/-! Loop-vs-map characterizations -/

theorem foldl_push_filter {α β : Type} (p : α → Bool) (g : α → β) (l : List α) :
    ∀ acc, List.foldl (fun acc x => if p x then acc ++ [g x] else acc) acc l
      = acc ++ (l.filter p).map g := by
  induction l with
  | nil => intro acc; simp
  | cons x xs ih =>
    intro acc
    simp only [List.foldl]
    cases h : p x with
    | true => simp [ih, List.filter_cons, h]
    | false => simp [ih, List.filter_cons, h]

theorem foldl_push_map {α β : Type} (g : α → β) (l : List α) :
    ∀ acc, List.foldl (fun acc x => acc ++ [g x]) acc l = acc ++ l.map g := by
  induction l with
  | nil => intro acc; simp
  | cons x xs ih =>
    intro acc
    simp only [List.foldl]
    simp [ih]

theorem collectFromDir_eq (p im : String) (names : List String) :
    collectFromDir p im names = (names.filter (fun f => strEndsWith f ".idl")).map
      (fun f => ⟨pathJoin p f, some im, none⟩) := by
  have h := foldl_push_filter (fun f => strEndsWith f ".idl")
    (fun f => (⟨pathJoin p f, some im, none⟩ : FileEntry)) names []
  simpa [collectFromDir] using h

theorem readAll_length (fs : FS) : ∀ files cs,
    readAll fs files = some cs → cs.length = files.length := by
  intro files
  induction files with
  | nil =>
    intro cs h
    simp [readAll] at h
    subst h
    rfl
  | cons f rest ih =>
    intro cs h
    simp only [readAll] at h
    cases hr : fs.readFile f.idlPath with
    | none => rw [hr] at h; simp at h
    | some c =>
      rw [hr] at h
      cases ha : readAll fs rest with
      | none => rw [ha] at h; simp at h
      | some cs' =>
        rw [ha] at h
        simp at h
        subst h
        simp [ih cs' ha]

theorem zipLoop_eq : ∀ (files : List FileEntry) (cs : List String),
    zipLoop files cs = (files.zip cs).map
      (fun pr => ⟨pr.2, pr.1.impl, pr.1.genPath⟩) := by
  intro files
  induction files with
  | nil => intro cs; cases cs <;> rfl
  | cons f fs ih =>
    intro cs
    cases cs with
    | nil => rfl
    | cons c cs' => simp [zipLoop, ih cs']

/-! Claim C4 -/

/-- C4 fails on the code: `addSource` type-checks its *second* argument
too, so calling it with the implementation-directory argument omitted
(`undefined`) throws `TypeError: impl path has to be a string` instead of
succeeding. -/
theorem c4_counterexample :
    addSource newTransformer (.str "a.idl") .undef =
      .error "TypeError: impl path has to be a string" := by
  rfl

/-- C4 (amended): `addSource` succeeds exactly when both arguments are
strings, appending the pair to the source list; for every idl path,
calling it with the implementation argument omitted raises a `TypeError`
— the implementation directory is mandatory in `addSource`. -/
theorem c4_corrected (st : TransformerState) (idl impl : String) :
    addSource st (.str idl) (.str impl) =
      .ok { st with sources := st.sources ++ [⟨idl, impl⟩] } ∧
    exceptOk (addSource st (.str idl) .undef) = false :=
  ⟨rfl, rfl⟩

/-! Claim C5 -/

/-- C5 fails on the code: collecting a directory source produces an entry
for a directly-contained *subdirectory* named `sub.idl` (the loop filters
`readdir` results by name suffix only, with no file/directory check),
while the claim says subdirectories yield no entries. -/
theorem c5_counterexample :
    collectSource fsC5 ⟨"d", "imp"⟩ = .ok [⟨"d/sub.idl", some "imp", none⟩] ∧
    fsC5.stat "d/sub.idl" = some FsKind.dir := by
  constructor
  · decide
  · decide

/-- C5 (amended): a directory source yields one entry per directly-listed
*name* ending in `".idl"` — whether that name denotes a file or a
subdirectory — with no recursion; a file source yields exactly one entry
with no extension check. -/
theorem c5_corrected (fs : FS) (src : SourceDecl) :
    (fs.stat src.idlPath = some FsKind.dir →
      collectSource fs src = .ok (((fs.readdir src.idlPath).filter
        (fun f => strEndsWith f ".idl")).map
          (fun f => ⟨pathJoin src.idlPath f, some src.impl, none⟩))) ∧
    (fs.stat src.idlPath = some FsKind.file →
      collectSource fs src = .ok [⟨src.idlPath, some src.impl, none⟩]) := by
  constructor <;> intro h <;> simp [collectSource, h, collectFromDir_eq]

/-- Witness for C5 at concrete inputs. -/
theorem c5_witness :
    (fsC5.stat "d" = some FsKind.dir ∧ fsC5.stat "f.txt" = some FsKind.file) ∧
    (collectSource fsC5 ⟨"d", "imp"⟩ = .ok (((fsC5.readdir "d").filter
        (fun f => strEndsWith f ".idl")).map
          (fun f => ⟨pathJoin "d" f, some "imp", none⟩)) ∧
     collectSource fsC5 ⟨"f.txt", "imp"⟩ = .ok [⟨"f.txt", some "imp", none⟩]) :=
  ⟨⟨by decide, by decide⟩,
   ⟨(c5_corrected fsC5 ⟨"d", "imp"⟩).1 (by decide),
    (c5_corrected fsC5 ⟨"f.txt", "imp"⟩).2 (by decide)⟩⟩

/-! Claim C6 -/

/-- C6: a module descriptor that parses but lacks the `webidl2js` section
yields zero entries and no error; when the section is present, every
listed IDL path yields one entry resolved against the descriptor's
directory, carrying the module's output subpath (`genPath`) and no
implementation directory. -/
theorem c6_confirmed (fs : FS) (modName pkgPath : String) (pkg : PackageJson)
    (hread : fs.descriptor pkgPath = some pkg) :
    (pkg.w2j = none → collectModule fs modName pkgPath = .ok []) ∧
    (∀ sec, pkg.w2j = some sec →
      collectModule fs modName pkgPath = .ok (sec.idl.map (fun f =>
        ⟨pathResolve (pathDirname pkgPath) f, none,
         some (pathJoin modName sec.ifaceDir)⟩))) := by
  constructor
  · intro h
    simp [collectModule, hread, h]
  · intro sec h
    simp only [collectModule, hread, h]
    have hm := foldl_push_map (fun f =>
      (⟨pathResolve (pathDirname pkgPath) f, none,
        some (pathJoin modName sec.ifaceDir)⟩ : FileEntry)) sec.idl []
    simp [hm]

/-- Witness for C6 at concrete inputs. -/
theorem c6_witness :
    (fsC6.descriptor "m/package.json" = some ⟨some ⟨"lib", ["a.idl", "b.idl"]⟩⟩ ∧
     fsC6.descriptor "m2/package.json" = some ⟨none⟩) ∧
    (collectModule fsC6 "m2" "m2/package.json" = .ok [] ∧
     collectModule fsC6 "m" "m/package.json" = .ok (["a.idl", "b.idl"].map (fun f =>
       ⟨pathResolve (pathDirname "m/package.json") f, none,
        some (pathJoin "m" "lib")⟩))) :=
  ⟨⟨by decide, by decide⟩,
   ⟨(c6_confirmed fsC6 "m2" "m2/package.json" ⟨none⟩ (by decide)).1 rfl,
    (c6_confirmed fsC6 "m" "m/package.json" ⟨some ⟨"lib", ["a.idl", "b.idl"]⟩⟩
      (by decide)).2 ⟨"lib", ["a.idl", "b.idl"]⟩ rfl⟩⟩

/-! Claim C7 -/

/-- C7: the Document Loader pairs the `i`-th read content positionally
with the `i`-th entry's metadata (a stable zip of equal length), and a
single read failure fails the whole phase with no partial result. -/
theorem c7_confirmed (fs : FS) (files : List FileEntry) :
    (readAll fs files = none → exceptOk (readFiles fs files) = false) ∧
    (∀ cs, readAll fs files = some cs →
      cs.length = files.length ∧
      readFiles fs files = .ok ((files.zip cs).map
        (fun pr => ⟨pr.2, pr.1.impl, pr.1.genPath⟩))) := by
  constructor
  · intro h
    simp [readFiles, h, exceptOk]
  · intro cs h
    exact ⟨readAll_length fs files cs h, by simp [readFiles, h, zipLoop_eq]⟩

/-- Witness for C7 at concrete inputs. -/
theorem c7_witness :
    (readAll fsC7 [⟨"c.idl", none, none⟩] = none ∧
     readAll fsC7 [⟨"a.idl", some "x", none⟩, ⟨"b.idl", none, some "g"⟩] =
       some ["textA", "textB"]) ∧
    (exceptOk (readFiles fsC7 [⟨"c.idl", none, none⟩]) = false ∧
     (["textA", "textB"].length =
        [(⟨"a.idl", some "x", none⟩ : FileEntry), ⟨"b.idl", none, some "g"⟩].length ∧
      readFiles fsC7 [⟨"a.idl", some "x", none⟩, ⟨"b.idl", none, some "g"⟩] =
        .ok (([(⟨"a.idl", some "x", none⟩ : FileEntry),
               ⟨"b.idl", none, some "g"⟩].zip ["textA", "textB"]).map
          (fun pr => ⟨pr.2, pr.1.impl, pr.1.genPath⟩)))) :=
  ⟨⟨by decide, by decide⟩,
   ⟨(c7_confirmed fsC7 [⟨"c.idl", none, none⟩]).1 (by decide),
    (c7_confirmed fsC7 [⟨"a.idl", some "x", none⟩, ⟨"b.idl", none, some "g"⟩]).2
      ["textA", "textB"] (by decide)⟩⟩

/-! Emission-loop characterizations -/

theorem writeInterfaces_spec (rel : String → String → String) (od up suf : String) :
    ∀ objs : List InterfaceEntry,
      objs.all (fun e => e.imported || e.implDir.isSome) = true →
      (writeInterfaces rel od up suf objs).map (fun ws => ws.map (fun w => w.path)) =
        .ok ((objs.filter (fun o => !o.imported)).map
          (fun o => pathJoin od (o.name ++ ".js"))) ∧
      (writeInterfaces rel od up suf objs).map (fun ws => ws.map (fun w => w.relativeUtils)) =
        .ok ((objs.filter (fun o => !o.imported)).map
          (fun _ => some (forceRel (deWin (rel od up))))) := by
  intro objs
  induction objs with
  | nil => intro h; exact ⟨rfl, rfl⟩
  | cons obj rest ih =>
    intro h
    simp only [List.all_cons, Bool.and_eq_true] at h
    obtain ⟨hobj, hrest⟩ := h
    cases himp : obj.imported with
    | true =>
      have := ih hrest
      constructor
      · simpa [writeInterfaces, himp, List.filter_cons] using this.1
      · simpa [writeInterfaces, himp, List.filter_cons] using this.2
    | false =>
      rw [himp] at hobj
      simp only [Bool.false_or] at hobj
      cases hdd : obj.implDir with
      | none => rw [hdd] at hobj; simp at hobj
      | some d =>
        cases hrec : writeInterfaces rel od up suf rest with
        | error e =>
          have := (ih hrest).1
          rw [hrec] at this
          simp [Except.map] at this
        | ok ws =>
          have h1 := (ih hrest).1
          have h2 := (ih hrest).2
          rw [hrec] at h1 h2
          simp only [Except.map] at h1 h2
          have e1 := Except.ok.inj h1
          have e2 := Except.ok.inj h2
          have hw : writeInterfaces rel od up suf (obj :: rest) =
              .ok (⟨pathJoin od (obj.name ++ ".js"),
                    some (forceRel (deWin (rel od up))),
                    some (forceRel (deWin (rel od d) ++ "/" ++ obj.name ++ suf) ++ ".js")⟩ :: ws) := by
            simp [writeInterfaces, himp, hdd, hrec]
          constructor
          · rw [hw]
            simp only [Except.map, List.map_cons]
            rw [e1]
            simp [List.filter_cons, himp]
          · rw [hw]
            simp only [Except.map, List.map_cons]
            rw [e2]
            simp [List.filter_cons, himp]

theorem writeDictionaries_spec (rel : String → String → String) (od up : String) :
    ∀ objs : List DictionaryEntry,
      (writeDictionaries rel od up objs).map (fun w => w.path) =
        (objs.filter (fun o => !o.imported)).map
          (fun o => pathJoin od (o.name ++ ".js")) ∧
      (writeDictionaries rel od up objs).map (fun w => w.relativeUtils) =
        (objs.filter (fun o => !o.imported)).map
          (fun _ => some (forceRel (deWin (rel od up)))) := by
  intro objs
  induction objs with
  | nil => exact ⟨rfl, rfl⟩
  | cons obj rest ih =>
    cases himp : obj.imported with
    | true =>
      constructor
      · simpa [writeDictionaries, himp, List.filter_cons] using ih.1
      · simpa [writeDictionaries, himp, List.filter_cons] using ih.2
    | false =>
      constructor
      · simp [writeDictionaries, himp, List.filter_cons, ih.1]
      · simp [writeDictionaries, himp, List.filter_cons, ih.2]

theorem writeFilesRun_spec (rel : String → String → String) (reg : Registry)
    (od up suf : String)
    (h : (reg.interfaces.map Prod.snd).all (fun e => e.imported || e.implDir.isSome) = true) :
    (writeFilesRun rel reg od up suf).map (fun ws => ws.map (fun w => w.path)) =
      .ok (up ::
        (((reg.interfaces.map Prod.snd).filter (fun o => !o.imported)).map
          (fun o => pathJoin od (o.name ++ ".js")) ++
         ((reg.dictionaries.map Prod.snd).filter (fun o => !o.imported)).map
          (fun o => pathJoin od (o.name ++ ".js")))) ∧
    (writeFilesRun rel reg od up suf).map (fun ws => ws.map (fun w => w.relativeUtils)) =
      .ok (none ::
        (((reg.interfaces.map Prod.snd).filter (fun o => !o.imported)).map
          (fun _ => some (forceRel (deWin (rel od up)))) ++
         ((reg.dictionaries.map Prod.snd).filter (fun o => !o.imported)).map
          (fun _ => some (forceRel (deWin (rel od up)))))) := by
  obtain ⟨hi1, hi2⟩ := writeInterfaces_spec rel od up suf (reg.interfaces.map Prod.snd) h
  obtain ⟨hd1, hd2⟩ := writeDictionaries_spec rel od up (reg.dictionaries.map Prod.snd)
  cases hrec : writeInterfaces rel od up suf (reg.interfaces.map Prod.snd) with
  | error e =>
    rw [hrec] at hi1
    simp [Except.map] at hi1
  | ok ws =>
    rw [hrec] at hi1 hi2
    simp only [Except.map] at hi1 hi2
    constructor
    · simp only [writeFilesRun, hrec, Except.map, List.cons_append,
        List.map_cons, List.map_append]
      rw [Except.ok.inj hi1, hd1]
    · simp only [writeFilesRun, hrec, Except.map, List.cons_append,
        List.map_cons, List.map_append]
      rw [Except.ok.inj hi2, hd2]

/-! Claim C8 -/

/-- C8: emission writes the shared utility module to the configured
`utilPath` (defaulting to `<outputDir>/utils.js` when unset), plus exactly
one `<TypeName>.js` in the output directory per non-imported interface and
per non-imported dictionary; imported entries produce no file. -/
theorem c8_confirmed (rel : String → String → String) (st : TransformerState)
    (reg : Registry) (od : String)
    (h : (reg.interfaces.map Prod.snd).all (fun e => e.imported || e.implDir.isSome) = true) :
    ((generateStep rel st reg od).2).map (fun ws => ws.map (fun w => w.path)) =
      .ok ((st.utilPath.getD (pathJoin od "utils.js")) ::
        (((reg.interfaces.map Prod.snd).filter (fun o => !o.imported)).map
          (fun o => pathJoin od (o.name ++ ".js")) ++
         ((reg.dictionaries.map Prod.snd).filter (fun o => !o.imported)).map
          (fun o => pathJoin od (o.name ++ ".js")))) := by
  cases hu : st.utilPath with
  | none =>
    simp only [generateStep, hu, Option.getD]
    exact (writeFilesRun_spec rel reg od (pathJoin od "utils.js") st.implSuffix h).1
  | some p =>
    simp only [generateStep, hu, Option.getD]
    exact (writeFilesRun_spec rel reg od p st.implSuffix h).1

/-- Witness for C8 at concrete inputs. -/
theorem c8_witness :
    (regC8.interfaces.map Prod.snd).all (fun e => e.imported || e.implDir.isSome) = true ∧
    ((generateStep (fun _ y => y) newTransformer regC8 "out").2).map
        (fun ws => ws.map (fun w => w.path)) =
      .ok ((newTransformer.utilPath.getD (pathJoin "out" "utils.js")) ::
        (((regC8.interfaces.map Prod.snd).filter (fun o => !o.imported)).map
          (fun o => pathJoin "out" (o.name ++ ".js")) ++
         ((regC8.dictionaries.map Prod.snd).filter (fun o => !o.imported)).map
          (fun o => pathJoin "out" (o.name ++ ".js")))) :=
  ⟨by decide, c8_confirmed (fun _ y => y) newTransformer regC8 "out" (by decide)⟩

/-! Claim C9 -/

/-- C9: the first `generate` call with `utilPath` unset fixes it to
`<outputDir1>/utils.js`; a second call on the same transformer with a
different output directory leaves it unchanged, still writes the utility
module to the first call's path, and computes every generated file's
relative utility specifier from the second output directory and the
*first* call's `utilPath`. -/
theorem c9_confirmed (rel : String → String → String) (st : TransformerState)
    (reg1 reg2 : Registry) (od1 od2 : String)
    (h0 : st.utilPath = none)
    (h2 : (reg2.interfaces.map Prod.snd).all (fun e => e.imported || e.implDir.isSome) = true) :
    ((generateStep rel st reg1 od1).1).utilPath = some (pathJoin od1 "utils.js") ∧
    ((generateStep rel (generateStep rel st reg1 od1).1 reg2 od2).1).utilPath =
      some (pathJoin od1 "utils.js") ∧
    ((generateStep rel (generateStep rel st reg1 od1).1 reg2 od2).2).map
        (fun ws => ws.map (fun w => w.path)) =
      .ok (pathJoin od1 "utils.js" ::
        (((reg2.interfaces.map Prod.snd).filter (fun o => !o.imported)).map
          (fun o => pathJoin od2 (o.name ++ ".js")) ++
         ((reg2.dictionaries.map Prod.snd).filter (fun o => !o.imported)).map
          (fun o => pathJoin od2 (o.name ++ ".js")))) ∧
    ((generateStep rel (generateStep rel st reg1 od1).1 reg2 od2).2).map
        (fun ws => ws.map (fun w => w.relativeUtils)) =
      .ok (none ::
        (((reg2.interfaces.map Prod.snd).filter (fun o => !o.imported)).map
          (fun _ => some (forceRel (deWin (rel od2 (pathJoin od1 "utils.js"))))) ++
         ((reg2.dictionaries.map Prod.snd).filter (fun o => !o.imported)).map
          (fun _ => some (forceRel (deWin (rel od2 (pathJoin od1 "utils.js"))))))) := by
  refine ⟨by simp [generateStep, h0], by simp [generateStep, h0], ?_, ?_⟩
  · simp only [generateStep, h0]
    exact (writeFilesRun_spec rel reg2 od2 (pathJoin od1 "utils.js") st.implSuffix h2).1
  · simp only [generateStep, h0]
    exact (writeFilesRun_spec rel reg2 od2 (pathJoin od1 "utils.js") st.implSuffix h2).2

/-- Witness for C9 at concrete inputs. -/
theorem c9_witness :
    (newTransformer.utilPath = none ∧
     (regC9.interfaces.map Prod.snd).all (fun e => e.imported || e.implDir.isSome) = true) ∧
    (((generateStep (fun _ y => y) newTransformer regC9 "o1").1).utilPath =
        some (pathJoin "o1" "utils.js") ∧
     ((generateStep (fun _ y => y)
        (generateStep (fun _ y => y) newTransformer regC9 "o1").1 regC9 "o2").1).utilPath =
        some (pathJoin "o1" "utils.js") ∧
     ((generateStep (fun _ y => y)
        (generateStep (fun _ y => y) newTransformer regC9 "o1").1 regC9 "o2").2).map
          (fun ws => ws.map (fun w => w.path)) =
        .ok (pathJoin "o1" "utils.js" ::
          (((regC9.interfaces.map Prod.snd).filter (fun o => !o.imported)).map
            (fun o => pathJoin "o2" (o.name ++ ".js")) ++
           ((regC9.dictionaries.map Prod.snd).filter (fun o => !o.imported)).map
            (fun o => pathJoin "o2" (o.name ++ ".js")))) ∧
     ((generateStep (fun _ y => y)
        (generateStep (fun _ y => y) newTransformer regC9 "o1").1 regC9 "o2").2).map
          (fun ws => ws.map (fun w => w.relativeUtils)) =
        .ok (none ::
          (((regC9.interfaces.map Prod.snd).filter (fun o => !o.imported)).map
            (fun _ => some (forceRel (deWin ((fun _ y => y) "o2" (pathJoin "o1" "utils.js"))))) ++
           ((regC9.dictionaries.map Prod.snd).filter (fun o => !o.imported)).map
            (fun _ => some (forceRel (deWin ((fun _ y => y) "o2" (pathJoin "o1" "utils.js")))))))) :=
  ⟨⟨rfl, by decide⟩,
   c9_confirmed (fun _ y => y) newTransformer regC9 regC9 "o1" "o2" rfl (by decide)⟩
